import Mathlib

/-!
Verification of the evict issue tracker core: the Issue timeline model,
the versioned JSON codec (src/evict/issue.rs) and the comment command's
argument state machine (src/evict/commands/comment.rs).

JSON trees (serialize::json::Json) are modelled by an inductive type;
objects (BTreeMap<String, Json>) are modelled as association lists with
distinct keys, accessed only through lookup, so insertion order is
irrelevant.  time::Tm is modelled by a record of the calendar fields the
fixed format string "%F %Y at %T" reads and writes (year is the full
calendar year, month and day are 1-based, matching what strftime prints
for tm_year+1900 and tm_mon+1).  A Rust panic (the unwrap calls in
Issue::read_from_map) is modelled as Except.error; all other decode
failures are Option.none exactly as in the source.
-/

/-- JSON values, after serialize::json::Json.  Numbers are collapsed to
one integer constructor; no code under verification inspects numeric
payloads, only their (non-string, non-bool) shape. -/
inductive Json where
  | null : Json
  | boolean : Bool → Json
  | number : Int → Json
  | string : String → Json
  | array : List Json → Json
  | object : List (String × Json) → Json

/-- A JSON object: association list standing for the BTreeMap. -/
abbrev JObj := List (String × Json)

/-- BTreeMap::get, first binding for the key. -/
def jLookup : JObj → String → Option Json
  | [], _ => none
  | (k, v) :: rest, key => if k = key then some v else jLookup rest key

def BODY_KEY : String := "bodyText"
def TIME_KEY : String := "time"
def AUTHOR_KEY : String := "author"
def TITLE_KEY : String := "title"
def ID_KEY : String := "id"
def VERSION_KEY : String := "evict-version"
def I_EVENT_KEY : String := "events"
def BRANCH_KEY : String := "branch"
def STATE_KEY : String := "status"
def NAME_KEY : String := "name"
def ENABLED_KEY : String := "enabled"

/-- get_string_for_key from issue.rs. -/
def get_string_for_key (map : JObj) (key : String) : Option String :=
  (jLookup map key).bind fun value =>
    match value with
    | Json.string s => some s
    | _ => none

/-- time::Tm restricted to the fields the format "%F %Y at %T" touches,
plus nanoseconds (carried by Tm and by Timespec, never printed).
`year` is the printed year (tm_year + 1900), `month` the printed month
(tm_mon + 1). -/
structure Tm where
  year : Nat
  month : Nat
  day : Nat
  hour : Nat
  min : Nat
  sec : Nat
  nsec : Nat
deriving DecidableEq, Repr

/-- time::empty_tm(): every raw tm field zero, i.e. calendar year 1900,
January, mday 0. -/
def empty_tm : Tm := ⟨1900, 1, 0, 0, 0, 0, 0⟩

def digitChar (n : Nat) : Char := Char.ofNat (48 + n % 10)

def isDigitChar (c : Char) : Bool := 48 ≤ c.toNat && c.toNat ≤ 57

def digitVal (c : Char) : Nat := c.toNat - 48

/-- Two-digit zero-padded decimal, as strftime prints %m %d %H %M %S. -/
def pad2 (n : Nat) : List Char := [digitChar (n / 10), digitChar n]

/-- Four-digit decimal, as strftime prints %Y for calendar years
1000..9999 (the only years strptime's four-digit %Y can read back). -/
def pad4 (n : Nat) : List Char :=
  [digitChar (n / 1000), digitChar (n / 100), digitChar (n / 10), digitChar n]

/-- time::strftime(TIME_FORMAT, tm) for TIME_FORMAT = "%F %Y at %T",
i.e. "%Y-%m-%d %Y at %H:%M:%S". -/
def strftime (t : Tm) : String :=
  String.mk (pad4 t.year ++ '-' :: (pad2 t.month ++ '-' :: (pad2 t.day ++
    ' ' :: (pad4 t.year ++ ' ' :: 'a' :: 't' :: ' ' :: (pad2 t.hour ++
      ':' :: (pad2 t.min ++ ':' :: pad2 t.sec))))))

/-- strptime helper: exactly two digit characters whose value lies in
[lo, hi] (the source library reads each two-digit field with a range
check: month 1..12, day 1..31, hour 0..23, minute/second 0..59). -/
def parse2 (lo hi : Nat) : List Char → Option (Nat × List Char)
  | c1 :: c2 :: rest =>
    if isDigitChar c1 && isDigitChar c2 then
      let v := 10 * digitVal c1 + digitVal c2
      if lo ≤ v && v ≤ hi then some (v, rest) else none
    else none
  | _ => none

/-- strptime helper: exactly four digit characters (%Y). -/
def parse4 : List Char → Option (Nat × List Char)
  | c1 :: c2 :: c3 :: c4 :: rest =>
    if isDigitChar c1 && isDigitChar c2 && isDigitChar c3 && isDigitChar c4 then
      some (1000 * digitVal c1 + 100 * digitVal c2 + 10 * digitVal c3 + digitVal c4, rest)
    else none
  | _ => none

/-- strptime helper: one literal character. -/
def lit (c : Char) : List Char → Option (List Char)
  | c' :: rest => if c' = c then some rest else none
  | [] => none

/-- strptime, %F part: "%Y-%m-%d". -/
def parseF (cs : List Char) : Option (Nat × Nat × Nat × List Char) := do
  let (y1, r1) ← parse4 cs
  let r2 ← lit '-' r1
  let (mo, r3) ← parse2 1 12 r2
  let r4 ← lit '-' r3
  let (d, r5) ← parse2 1 31 r4
  some (y1, mo, d, r5)

/-- strptime, middle literal-and-year part: " %Y at ". -/
def parseMid (cs : List Char) : Option (Nat × List Char) := do
  let r6 ← lit ' ' cs
  let (y2, r7) ← parse4 r6
  let r8 ← lit ' ' r7
  let r9 ← lit 'a' r8
  let r10 ← lit 't' r9
  let r11 ← lit ' ' r10
  some (y2, r11)

/-- strptime, %T part: "%H:%M:%S". -/
def parseT (cs : List Char) : Option (Nat × Nat × Nat × List Char) := do
  let (h, r12) ← parse2 0 23 cs
  let r13 ← lit ':' r12
  let (mi, r14) ← parse2 0 59 r13
  let r15 ← lit ':' r14
  let (sec, r16) ← parse2 0 59 r15
  some (h, mi, sec, r16)

/-- time::strptime(s, TIME_FORMAT) for TIME_FORMAT = "%F %Y at %T".
The second %Y overwrites the year read by %F, exactly as in the
field-by-field source parser; fields the format does not mention stay
zero (so nsec = 0); input after the format is ignored. -/
def strptime (s : String) : Option Tm := do
  let (_y1, mo, d, r5) ← parseF s.data
  let (y2, r11) ← parseMid r5
  let (h, mi, sec, _r16) ← parseT r11
  some ⟨y2, mo, d, h, mi, sec, 0⟩

/-- time::Timespec: seconds and nanoseconds since the epoch; its derived
order is lexicographic on (sec, nsec). -/
structure Timespec where
  sec : Int
  nsec : Int
deriving DecidableEq, Repr

/-- Derived PartialOrd::lt on Timespec. -/
def Timespec.lt (a b : Timespec) : Bool :=
  a.sec < b.sec || (a.sec == b.sec && a.nsec < b.nsec)

/-- Days since 1970-01-01 of a civil date (the standard civil-calendar
conversion the time library performs inside Tm::to_timespec). -/
def days_from_civil (y m d : Int) : Int :=
  let yy := if m ≤ 2 then y - 1 else y
  let era := (if 0 ≤ yy then yy else yy - 399) / 400
  let yoe := yy - era * 400
  let doy := (153 * (if 2 < m then m - 3 else m + 9) + 2) / 5 + d - 1
  let doe := yoe * 365 + yoe / 4 - yoe / 100 + doy
  era * 146097 + doe - 719468

/-- Tm::to_timespec(): seconds since the epoch of the UTC calendar
fields, nanoseconds passed through. -/
def Tm.to_timespec (t : Tm) : Timespec :=
  ⟨days_from_civil t.year t.month t.day * 86400
     + t.hour * 3600 + t.min * 60 + t.sec, t.nsec⟩

/-- The Tm values the codec round-trips: what strftime prints for them
is exactly what strptime accepts (four-digit year, in-range calendar
fields).  Every Tm the program itself builds — time::now() or a
strptime result — satisfies this. -/
def Tm.Valid (t : Tm) : Prop :=
  1000 ≤ t.year ∧ t.year ≤ 9999 ∧ 1 ≤ t.month ∧ t.month ≤ 12 ∧
  1 ≤ t.day ∧ t.day ≤ 31 ∧ t.hour ≤ 23 ∧ t.min ≤ 59 ∧ t.sec ≤ 59

instance (t : Tm) : Decidable t.Valid := by
  unfold Tm.Valid; infer_instance

/-- Modelled from the spec: status_storage::DEFAULT_STATUS_NAME is not
under src/; the spec only requires "a designated default status name".
No claim depends on its concrete value. -/
def DEFAULT_STATUS_NAME : String := "open"

/-- Modelled from the spec: evict::CURRENT_VERSION is not under src/;
the spec requires the encoder to write "the single currently-supported
version", and the decoder dispatch in Issue::read_from_map accepts
exactly the integer 1. -/
def CURRENT_VERSION : String := "1"

structure IssueComment where
  creation_time : Tm
  author : String
  body_text : String
  branch : String
  id : String
deriving DecidableEq, Repr

structure IssueTag where
  time : Tm
  tag_name : String
  enabled : Bool
  author : String
  change_id : String
deriving DecidableEq, Repr

inductive IssueTimelineEvent where
  | TimelineComment : IssueComment → IssueTimelineEvent
  | TimelineTag : IssueTag → IssueTimelineEvent
deriving DecidableEq, Repr

structure IssueStatus where
  name : String
  last_change_time : Tm
deriving DecidableEq, Repr

structure Issue where
  title : String
  creation_time : Tm
  author : String
  body_text : String
  id : String
  events : List IssueTimelineEvent
  branch : String
  status : IssueStatus
deriving DecidableEq, Repr

/-- impl PartialEq for Issue: equality is solely by id. -/
def Issue.eq (a b : Issue) : Bool := a.id == b.id

/-- IssueStatus::default(). -/
def IssueStatus.default : IssueStatus := ⟨DEFAULT_STATUS_NAME, empty_tm⟩

/-- IssueStatus::from_json: total, any failure falls back to the
default status. -/
def IssueStatus.from_json (j : Json) : IssueStatus :=
  match j with
  | Json.object map =>
    ((get_string_for_key map NAME_KEY).bind fun name =>
      (get_string_for_key map TIME_KEY).bind fun time =>
        match strptime time with
        | some tm => some (⟨name, tm⟩ : IssueStatus)
        | none => none).getD IssueStatus.default
  | _ => IssueStatus.default

/-- IssueStatus::to_json (json_time inlined: the strftime of the
time). -/
def IssueStatus.to_json (s : IssueStatus) : Json :=
  Json.object [(NAME_KEY, Json.string s.name),
               (TIME_KEY, Json.string (strftime s.last_change_time))]

/-- IssueTag::read_enabled. -/
def IssueTag.read_enabled (map : JObj) : Option Bool :=
  (jLookup map ENABLED_KEY).bind fun j =>
    match j with
    | Json.boolean b => some b
    | _ => none

/-- IssueTag::read_from_map: every field required, any miss is none. -/
def IssueTag.read_from_map (map : JObj) : Option IssueTag := do
  let tname ← get_string_for_key map NAME_KEY
  let author ← get_string_for_key map AUTHOR_KEY
  let enabled ← IssueTag.read_enabled map
  let id ← get_string_for_key map ID_KEY
  let timeStr ← get_string_for_key map TIME_KEY
  match strptime timeStr with
  | some time => some ⟨time, tname, enabled, author, id⟩
  | none => none

/-- IssueTag::from_json. -/
def IssueTag.from_json (j : Json) : Option IssueTag :=
  match j with
  | Json.object map => IssueTag.read_from_map map
  | _ => none

/-- IssueTag::to_json. -/
def IssueTag.to_json (t : IssueTag) : Json :=
  Json.object [(TIME_KEY, Json.string (strftime t.time)),
               (AUTHOR_KEY, Json.string t.author),
               (NAME_KEY, Json.string t.tag_name),
               (ENABLED_KEY, Json.boolean t.enabled),
               (ID_KEY, Json.string t.change_id)]

/-- IssueComment::read_from_map.  The source calls generate_id() (a
clock read) when the id entry is missing or not a string; that fresh id
is modelled as the extra parameter genId. -/
def IssueComment.read_from_map (map : JObj) (genId : String) : Option IssueComment := do
  let body ← get_string_for_key map BODY_KEY
  let author ← get_string_for_key map AUTHOR_KEY
  let branch ← get_string_for_key map BRANCH_KEY
  let time ← get_string_for_key map TIME_KEY
  match strptime time with
  | some tm => some ⟨tm, author, body, branch, (get_string_for_key map ID_KEY).getD genId⟩
  | none => none

/-- IssueComment::from_json, genId threaded through as above. -/
def IssueComment.from_json (j : Json) (genId : String) : Option IssueComment :=
  match j with
  | Json.object map => IssueComment.read_from_map map genId
  | _ => none

/-- IssueComment::to_json. -/
def IssueComment.to_json (c : IssueComment) : Json :=
  Json.object [(BODY_KEY, Json.string c.body_text),
               (TIME_KEY, Json.string (strftime c.creation_time)),
               (AUTHOR_KEY, Json.string c.author),
               (BRANCH_KEY, Json.string c.branch),
               (ID_KEY, Json.string c.id)]

/-- IssueTimelineEvent::from_json.  A 2-element array dispatches on its
kind string ("comment" / "tag"); an array of any other length is none;
any non-array falls to the legacy branch, which decodes the value
itself as a bare comment payload.  genId is the fresh id a comment
decode would generate for a missing id entry. -/
def IssueTimelineEvent.from_json (j : Json) (genId : String) : Option IssueTimelineEvent :=
  match j with
  | Json.array jlist =>
    match jlist with
    | [Json.string kind, payload] =>
      if kind = "comment" then
        (IssueComment.from_json payload genId).map IssueTimelineEvent.TimelineComment
      else if kind = "tag" then
        (IssueTag.from_json payload).map IssueTimelineEvent.TimelineTag
      else none
    | _ => none
  | otherJson => (IssueComment.from_json otherJson genId).map IssueTimelineEvent.TimelineComment

/-- IssueTimelineEvent::time. -/
def IssueTimelineEvent.time : IssueTimelineEvent → Tm
  | IssueTimelineEvent.TimelineComment c => c.creation_time
  | IssueTimelineEvent.TimelineTag t => t.time

/-- IssueTimelineEvent::id. -/
def IssueTimelineEvent.event_id : IssueTimelineEvent → String
  | IssueTimelineEvent.TimelineComment c => c.id
  | IssueTimelineEvent.TimelineTag t => t.change_id

/-- isize::from_str_radix(s, 10): optional single sign, then at least
one decimal digit, result bounded by the 64-bit isize range. -/
def digitsVal : List Char → Nat → Option Nat
  | [], acc => some acc
  | c :: rest, acc =>
    if isDigitChar c then digitsVal rest (10 * acc + digitVal c) else none

def parseDigits10 : List Char → Option Nat
  | [] => none
  | cs => digitsVal cs 0

def from_str_radix10 (s : String) : Option Int :=
  let core := fun (cs : List Char) (neg : Bool) =>
    (parseDigits10 cs).bind fun n =>
      if neg then
        if n ≤ 2 ^ 63 then some (-(n : Int)) else none
      else
        if n ≤ 2 ^ 63 - 1 then some (n : Int) else none
  match s.data with
  | '-' :: rest => core rest true
  | '+' :: rest => core rest false
  | cs => core cs false

/-- Issue::add_comment. -/
def Issue.add_comment (i : Issue) (comment : IssueComment) : Issue :=
  { i with events := i.events ++ [IssueTimelineEvent.TimelineComment comment] }

/-- Issue::add_tag. -/
def Issue.add_tag (i : Issue) (tag : IssueTag) : Issue :=
  { i with events := i.events ++ [IssueTimelineEvent.TimelineTag tag] }

/-- The loop body of Issue::most_recent_tag_for_name: keep the current
best, replace it only when a matching tag has a strictly later
to_timespec. -/
def mrStep (name : String) (recent : Option IssueTag) (evt : IssueTimelineEvent) : Option IssueTag :=
  match evt with
  | IssueTimelineEvent.TimelineTag tag =>
    if tag.tag_name = name then
      match recent with
      | none => some tag
      | some old_tag =>
        if Timespec.lt old_tag.time.to_timespec tag.time.to_timespec
        then some tag else some old_tag
    else recent
  | _ => recent

/-- Issue::most_recent_tag_for_name: the for-loop as a left fold. -/
def Issue.most_recent_tag_for_name (i : Issue) (name : String) : Option IssueTag :=
  i.events.foldl (mrStep name) none

/-- The loop body of Issue::all_tags, acting on the (untagged,
tag_list) pair; Vec::push appends on the right. -/
def allTagsStep (st : List String × List String) (evt : IssueTimelineEvent) :
    List String × List String :=
  match evt with
  | IssueTimelineEvent.TimelineTag tag =>
    let is_untag := st.1.contains tag.tag_name
    if !is_untag && tag.enabled then (st.1, st.2 ++ [tag.tag_name])
    else if !is_untag && !tag.enabled then (st.1 ++ [tag.tag_name], st.2)
    else st
  | _ => st

/-- Issue::all_tags: the for-loop over events.iter().rev() as a left
fold over the reversed event list, returning the tag_list component. -/
def Issue.all_tags (i : Issue) : List String :=
  (i.events.reverse.foldl allTagsStep ([], [])).2

/-- Issue::no_comment_json.  The BTreeMap is written as the key/value
list; every key is distinct, and decoding only ever looks keys up, so
the map order is immaterial. -/
def Issue.no_comment_json (i : Issue) : Json :=
  Json.object [(VERSION_KEY, Json.string CURRENT_VERSION),
               (TITLE_KEY, Json.string i.title),
               (TIME_KEY, Json.string (strftime i.creation_time)),
               (AUTHOR_KEY, Json.string i.author),
               (ID_KEY, Json.string i.id),
               (BRANCH_KEY, Json.string i.branch),
               (STATE_KEY, i.status.to_json)]

/-- Issue::read_from_map.  The two source unwind points — the explicit
missing-version panic and the unwrap of from_str_radix — are modelled
as Except.error; every other failure is the recoverable Except.ok
none. -/
def Issue.read_from_map (map : JObj) : Except String (Option Issue) :=
  match get_string_for_key map VERSION_KEY with
  | none => Except.error "No version on json for an issue."
  | some vstr =>
    match from_str_radix10 vstr with
    | none => Except.error "called unwrap on an Err value"
    | some version =>
      if version = 1 then
        Except.ok (do
          let title ← get_string_for_key map TITLE_KEY
          let author ← get_string_for_key map AUTHOR_KEY
          let branch ← get_string_for_key map BRANCH_KEY
          let id ← get_string_for_key map ID_KEY
          let status := match jLookup map STATE_KEY with
                        | none => IssueStatus.default
                        | some j => IssueStatus.from_json j
          let time ← get_string_for_key map TIME_KEY
          match strptime time with
          | some tm => some (⟨title, tm, author, "", id, [], branch, status⟩ : Issue)
          | none => none)
      else Except.ok none

/-- Modelled from the spec: date_sort::sort_by_time is not under src/;
the spec requires a decoded issue's events to be "sorted
chronologically before being considered ready for use".  Insertion
sort, non-decreasing in to_timespec. -/
def insert_by_time (e : IssueTimelineEvent) : List IssueTimelineEvent → List IssueTimelineEvent
  | [] => [e]
  | x :: xs =>
    if Timespec.lt x.time.to_timespec e.time.to_timespec
    then x :: insert_by_time e xs
    else e :: x :: xs

def sort_events_by_time (evts : List IssueTimelineEvent) : List IssueTimelineEvent :=
  evts.foldr insert_by_time []

def sort_issue_events (i : Issue) : Issue :=
  { i with events := sort_events_by_time i.events }

/-- Issue::from_json: object dispatch to read_from_map, then the
date_sort pass over the decoded issue's events. -/
def Issue.from_json (j : Json) : Except String (Option Issue) :=
  (match j with
   | Json.object map => Issue.read_from_map map
   | _ => Except.ok none).map (Option.map sort_issue_events)

/-- Issue::load_events: each array entry decoded independently,
malformed entries silently dropped; genId as in the event decoder. -/
def Issue.load_events (j : Json) (genId : String) : List IssueTimelineEvent :=
  match j with
  | Json.array list => list.filterMap (IssueTimelineEvent.from_json · genId)
  | _ => []

/-- Modelled from the spec: the fsm module is not under src/.  A
state machine is an accumulator plus a pure step function whose outcome
either continues with an updated accumulator or halts further
processing; only the continue outcome is exercised by the code under
src/. -/
inductive NextState (S B : Type) where
  | Continue : S → NextState S B
  | Stop : S → NextState S B

structure StateMachine (S B : Type) where
  handler : S → B → NextState S B
  state : S
  halted : Bool

def StateMachine.new {S B : Type} (h : S → B → NextState S B) (s : S) : StateMachine S B :=
  ⟨h, s, false⟩

def StateMachine.process {S B : Type} (m : StateMachine S B) (tok : B) : StateMachine S B :=
  if m.halted then m
  else
    match m.handler m.state tok with
    | NextState.Continue s' => { m with state := s' }
    | NextState.Stop s' => { m with state := s', halted := true }

def StateMachine.extract_state {S B : Type} (m : StateMachine S B) : S := m.state

/-- The for-loop in new_comment feeding every token, in order, to
process. -/
def StateMachine.process_all {S B : Type} (m : StateMachine S B) (toks : List B) : StateMachine S B :=
  toks.foldl StateMachine.process m

/-- commands/comment.rs Flags. -/
structure Flags where
  issueIdPart : Option String
deriving DecidableEq, Repr

/-- commands/comment.rs std_handler: the match on arg is irrefutable,
so every token continues with it recorded as the id fragment. -/
def std_handler (flags : Flags) (arg : String) : NextState Flags String :=
  NextState.Continue { flags with issueIdPart := some arg }

/-- The pure accumulator part of new_comment: build the machine with
std_handler and an empty Flags, feed all args, extract the final
state.  (Everything after the extraction is store/editor I/O.) -/
def new_comment_flags (args : List String) : Flags :=
  ((StateMachine.new std_handler ⟨none⟩).process_all args).extract_state

/-! Spec-side helper notions used to state the claims. -/

/-- Events in non-decreasing time order (the order date_sort
establishes and the tag queries assume). -/
def sortedByTime : List IssueTimelineEvent → Bool
  | [] => true
  | [_] => true
  | a :: b :: rest =>
    !(Timespec.lt b.time.to_timespec a.time.to_timespec) && sortedByTime (b :: rest)

/-- First Tag event carrying the given name, scanning left to right. -/
def first_tag_named (name : String) : List IssueTimelineEvent → Option IssueTag
  | [] => none
  | IssueTimelineEvent.TimelineTag t :: rest =>
    if t.tag_name = name then some t else first_tag_named name rest
  | _ :: rest => first_tag_named name rest

/-- The Tag event for the given name that the reverse scan of all_tags
meets first: the last-listed one. -/
def latest_tag_named (evts : List IssueTimelineEvent) (name : String) : Option IssueTag :=
  first_tag_named name evts.reverse

/-- The Tag events carrying the given name, in list order. -/
def tags_named (name : String) : List IssueTimelineEvent → List IssueTag
  | [] => []
  | IssueTimelineEvent.TimelineTag t :: rest =>
    if t.tag_name = name then t :: tags_named name rest else tags_named name rest
  | _ :: rest => tags_named name rest

/-- Removing every binding of a key from an object (statement-side
helper, not source code). -/
def eraseKey : JObj → String → JObj
  | [], _ => []
  | (k, v) :: rest, key =>
    if k = key then eraseKey rest key else (k, v) :: eraseKey rest key

/-- Shape of a decode result: none for a panic, otherwise whether an
issue came out. -/
def decode_outcome (r : Except String (Option Issue)) : Option Bool :=
  match r with
  | Except.error _ => none
  | Except.ok o => some o.isSome

/-- The matching-tag part of the most-recent scan: what mrStep does
once the name matches. -/
def mrTagStep (recent : Option IssueTag) (tag : IssueTag) : Option IssueTag :=
  match recent with
  | none => some tag
  | some old_tag =>
    if Timespec.lt old_tag.time.to_timespec tag.time.to_timespec
    then some tag else some old_tag

/-- The running best of the scan, seeded with a first candidate:
replaced only by a strictly later tag. -/
def firstMax (best : IssueTag) : List IssueTag → IssueTag
  | [] => best
  | t :: rest =>
    if Timespec.lt best.time.to_timespec t.time.to_timespec
    then firstMax t rest
    else firstMax best rest

/-! Arithmetic facts about the time codec. -/

theorem digitVal_digitChar (n : Nat) : digitVal (digitChar n) = n % 10 := by
  have h : n % 10 < 10 := Nat.mod_lt _ (by norm_num)
  unfold digitVal digitChar
  set m := n % 10 with hm
  interval_cases m <;> rfl

theorem isDigitChar_digitChar (n : Nat) : isDigitChar (digitChar n) = true := by
  have h : n % 10 < 10 := Nat.mod_lt _ (by norm_num)
  unfold isDigitChar digitChar
  set m := n % 10 with hm
  interval_cases m <;> rfl

theorem lit_cons (c : Char) (r : List Char) : lit c (c :: r) = some r := by
  simp [lit]

theorem parse2_pad2 (lo hi n : Nat) (r : List Char) (h99 : n ≤ 99)
    (hlo : lo ≤ n) (hhi : n ≤ hi) : parse2 lo hi (pad2 n ++ r) = some (n, r) := by
  have hv : 10 * digitVal (digitChar (n / 10)) + digitVal (digitChar n) = n := by
    rw [digitVal_digitChar, digitVal_digitChar]; omega
  simp [pad2, parse2, isDigitChar_digitChar, hv, hlo, hhi]

theorem parse4_pad4 (n : Nat) (r : List Char) (h : n ≤ 9999) :
    parse4 (pad4 n ++ r) = some (n, r) := by
  have hv : 1000 * digitVal (digitChar (n / 1000)) + 100 * digitVal (digitChar (n / 100))
      + 10 * digitVal (digitChar (n / 10)) + digitVal (digitChar n) = n := by
    rw [digitVal_digitChar, digitVal_digitChar, digitVal_digitChar, digitVal_digitChar]; omega
  simp [pad4, parse4, isDigitChar_digitChar, hv]

theorem parseF_print (y mo d : Nat) (r : List Char) (hy : y ≤ 9999)
    (hmo1 : 1 ≤ mo) (hmo : mo ≤ 12) (hd1 : 1 ≤ d) (hd : d ≤ 31) :
    parseF (pad4 y ++ '-' :: (pad2 mo ++ '-' :: (pad2 d ++ r))) = some (y, mo, d, r) := by
  unfold parseF
  rw [parse4_pad4 _ _ hy]
  simp only [Option.bind_eq_bind, Option.some_bind, lit_cons]
  rw [parse2_pad2 1 12 mo _ (by omega) hmo1 hmo]
  simp only [Option.some_bind, lit_cons]
  rw [parse2_pad2 1 31 d _ (by omega) hd1 hd]
  simp only [Option.some_bind]

theorem parseMid_print (y : Nat) (r : List Char) (hy : y ≤ 9999) :
    parseMid (' ' :: (pad4 y ++ ' ' :: 'a' :: 't' :: ' ' :: r)) = some (y, r) := by
  unfold parseMid
  simp only [Option.bind_eq_bind, lit_cons, Option.some_bind]
  rw [parse4_pad4 _ _ hy]
  simp only [Option.some_bind, lit_cons]

theorem parseT_print (h mi s : Nat) (r : List Char) (hh : h ≤ 23)
    (hmi : mi ≤ 59) (hs : s ≤ 59) :
    parseT (pad2 h ++ ':' :: (pad2 mi ++ ':' :: (pad2 s ++ r))) = some (h, mi, s, r) := by
  unfold parseT
  rw [parse2_pad2 0 23 h _ (by omega) (by omega) hh]
  simp only [Option.bind_eq_bind, Option.some_bind, lit_cons]
  rw [parse2_pad2 0 59 mi _ (by omega) (by omega) hmi]
  simp only [Option.some_bind, lit_cons]
  rw [parse2_pad2 0 59 s _ (by omega) (by omega) hs]
  simp only [Option.some_bind]

/-- The codec round trip on times: parsing what strftime printed
recovers the printed calendar fields (with nanoseconds reset, since the
format does not carry them). -/
theorem strptime_strftime (t : Tm) (h : t.Valid) :
    strptime (strftime t) = some ⟨t.year, t.month, t.day, t.hour, t.min, t.sec, 0⟩ := by
  obtain ⟨h1, h2, h3, h4, h5, h6, h7, h8, h9⟩ := h
  unfold strptime strftime
  rw [show (String.mk (pad4 t.year ++ '-' :: (pad2 t.month ++ '-' :: (pad2 t.day ++
    ' ' :: (pad4 t.year ++ ' ' :: 'a' :: 't' :: ' ' :: (pad2 t.hour ++
      ':' :: (pad2 t.min ++ ':' :: pad2 t.sec))))))).data
      = pad4 t.year ++ '-' :: (pad2 t.month ++ '-' :: (pad2 t.day ++
    ' ' :: (pad4 t.year ++ ' ' :: 'a' :: 't' :: ' ' :: (pad2 t.hour ++
      ':' :: (pad2 t.min ++ ':' :: (pad2 t.sec ++ [])))))) from by simp]
  rw [parseF_print _ _ _ _ h2 h3 h4 h5 h6]
  simp only [Option.bind_eq_bind, Option.some_bind]
  rw [parseMid_print _ _ h2]
  simp only [Option.some_bind]
  rw [parseT_print _ _ _ _ h7 h8 h9]
  simp only [Option.some_bind]

/-- C6: Issue equality is solely by identifier: for all Issues a and b,
a == b iff a.id == b.id; in particular two issues sharing an id but
differing in every other field compare equal, and two otherwise
identical issues with different ids compare unequal. -/
theorem c6_identity_equality :
    (∀ a b : Issue, Issue.eq a b = true ↔ a.id = b.id)
    ∧ Issue.eq ⟨"A", ⟨2013,1,1,0,0,0,0⟩, "C", "B", "7", [], "m", IssueStatus.default⟩
               ⟨"X", ⟨2014,2,2,1,1,1,0⟩, "Z", "Y", "7", [], "n", IssueStatus.default⟩ = true
    ∧ Issue.eq ⟨"A", ⟨2013,1,1,0,0,0,0⟩, "C", "B", "7", [], "m", IssueStatus.default⟩
               ⟨"A", ⟨2013,1,1,0,0,0,0⟩, "C", "B", "8", [], "m", IssueStatus.default⟩ = false := by
  refine ⟨fun a b => ?_, rfl, by decide⟩
  simp [Issue.eq]

/-- C2 counterexample: the claim says any present-but-unsupported
version value yields None; but for the present version value "abc"
(not a decimal numeral, hence not the supported version), the
from_str_radix unwrap in Issue::read_from_map panics (modelled as
Except.error) instead of returning None. -/
theorem c2_counterexample :
    jLookup [(VERSION_KEY, Json.string "abc")] VERSION_KEY = some (Json.string "abc")
    ∧ ("abc" : String) ≠ CURRENT_VERSION
    ∧ Issue.read_from_map [(VERSION_KEY, Json.string "abc")]
        = Except.error "called unwrap on an Err value" := by
  refine ⟨rfl, by decide, rfl⟩

/-- C2 (amended): a present version value that is a string parsing as
a decimal isize different from 1 makes Issue::read_from_map return ok
none (a miss, no abort); but a version entry that is absent or not a
string panics with the missing-version message, and a version string
that does not parse as a decimal isize panics through unwrap. -/
theorem c2_amended :
    (∀ (m : JObj) (vs : String) (v : Int),
       get_string_for_key m VERSION_KEY = some vs →
       from_str_radix10 vs = some v → v ≠ 1 →
       Issue.read_from_map m = Except.ok none)
    ∧ (∀ m : JObj, get_string_for_key m VERSION_KEY = none →
        Issue.read_from_map m = Except.error "No version on json for an issue.")
    ∧ (∀ (m : JObj) (vs : String), get_string_for_key m VERSION_KEY = some vs →
        from_str_radix10 vs = none →
        Issue.read_from_map m = Except.error "called unwrap on an Err value") := by
  refine ⟨fun m vs v h1 h2 h3 => ?_, fun m h1 => ?_, fun m vs h1 h2 => ?_⟩
  · simp [Issue.read_from_map, h1, h2, h3]
  · simp [Issue.read_from_map, h1]
  · simp [Issue.read_from_map, h1, h2]

theorem c2_amended_witness :
    Issue.read_from_map [(VERSION_KEY, Json.string "2")] = Except.ok none :=
  c2_amended.1 [(VERSION_KEY, Json.string "2")] "2" 2 rfl rfl (by decide)

/-- C3 counterexample: the claim lists id among the Comment fields whose
absence makes the event decode return None; but on a comment payload
with bodyText, time, author and branch and no id entry, the decoder
returns Some comment, substituting a freshly generated id. -/
theorem c3_counterexample :
    jLookup [(BODY_KEY, Json.string "b"), (TIME_KEY, Json.string "2013-01-01 2013 at 00:00:00"),
             (AUTHOR_KEY, Json.string "a"), (BRANCH_KEY, Json.string "m")] ID_KEY = none
    ∧ IssueComment.read_from_map
        [(BODY_KEY, Json.string "b"), (TIME_KEY, Json.string "2013-01-01 2013 at 00:00:00"),
         (AUTHOR_KEY, Json.string "a"), (BRANCH_KEY, Json.string "m")] "gen"
        = some ⟨⟨2013,1,1,0,0,0,0⟩, "a", "b", "m", "gen"⟩ := by
  exact ⟨rfl, rfl⟩

/-- C3 (amended): a Comment payload missing (or mistyping) bodyText,
time, author or branch decodes to none, and on a missing or mistyped id
the decoded comment carries the freshly generated id instead; a Tag
payload missing (or mistyping) any of name, author, enabled, id or time
decodes to none.  No case aborts: the decoders are total into Option. -/
theorem c3_amended :
    (∀ (m : JObj) (genId : String),
       get_string_for_key m BODY_KEY = none ∨ get_string_for_key m AUTHOR_KEY = none ∨
       get_string_for_key m BRANCH_KEY = none ∨ get_string_for_key m TIME_KEY = none →
       IssueComment.read_from_map m genId = none)
    ∧ (∀ (m : JObj) (genId : String) (c : IssueComment),
       get_string_for_key m ID_KEY = none →
       IssueComment.read_from_map m genId = some c → c.id = genId)
    ∧ (∀ m : JObj,
       get_string_for_key m NAME_KEY = none ∨ get_string_for_key m AUTHOR_KEY = none ∨
       IssueTag.read_enabled m = none ∨ get_string_for_key m ID_KEY = none ∨
       get_string_for_key m TIME_KEY = none →
       IssueTag.read_from_map m = none) := by
  refine ⟨fun m genId h => ?_, fun m genId c hid h => ?_, fun m h => ?_⟩
  · rcases h with h | h | h | h <;>
      cases hb : get_string_for_key m BODY_KEY <;>
      cases ha : get_string_for_key m AUTHOR_KEY <;>
      cases hbr : get_string_for_key m BRANCH_KEY <;>
      simp_all [IssueComment.read_from_map]
  · unfold IssueComment.read_from_map at h
    cases hb : get_string_for_key m BODY_KEY <;> rw [hb] at h <;>
      cases ha : get_string_for_key m AUTHOR_KEY <;> rw [ha] at h <;>
      cases hbr : get_string_for_key m BRANCH_KEY <;> rw [hbr] at h <;>
      cases ht : get_string_for_key m TIME_KEY <;> rw [ht] at h <;>
      simp only [Option.bind_eq_bind, Option.none_bind, Option.some_bind] at h <;>
      try exact absurd h (by simp)
    split at h
    · simp only [Option.some.injEq] at h
      rw [← h]
      simp [hid]
    · exact absurd h (by simp)
  · rcases h with h | h | h | h | h <;>
      cases hn : get_string_for_key m NAME_KEY <;>
      cases ha : get_string_for_key m AUTHOR_KEY <;>
      cases he : IssueTag.read_enabled m <;>
      cases hid : get_string_for_key m ID_KEY <;>
      simp_all [IssueTag.read_from_map]

theorem c3_amended_witness :
    IssueComment.read_from_map [(TIME_KEY, Json.string "x")] "g" = none :=
  c3_amended.1 [(TIME_KEY, Json.string "x")] "g" (Or.inl rfl)

theorem jLookup_eraseKey_ne (m : JObj) (k key : String) (h : k ≠ key) :
    jLookup (eraseKey m key) k = jLookup m k := by
  induction m with
  | nil => rfl
  | cons p rest ih =>
    obtain ⟨k', v⟩ := p
    by_cases hk : k' = key
    · simp [eraseKey, hk, jLookup, Ne.symm h, ih]
    · by_cases hkk : k' = k <;> simp [eraseKey, hk, jLookup, hkk, ih, h]

theorem gsk_eraseKey_ne (m : JObj) (k key : String) (h : k ≠ key) :
    get_string_for_key (eraseKey m key) k = get_string_for_key m k := by
  unfold get_string_for_key
  rw [jLookup_eraseKey_ne m k key h]

/-- Inversion of a successful Issue::read_from_map: the decoded issue
has empty body and events, and carries the status decoded (with
fallback) from the status entry. -/
theorem read_from_map_ok_some (m : JObj) (i : Issue)
    (h : Issue.read_from_map m = Except.ok (some i)) :
    i.body_text = "" ∧ i.events = [] ∧
    i.status = (match jLookup m STATE_KEY with
                | none => IssueStatus.default
                | some j => IssueStatus.from_json j) := by
  unfold Issue.read_from_map at h
  split at h
  · exact absurd h (by simp)
  split at h
  · exact absurd h (by simp)
  split at h
  swap
  · exact absurd h (by simp)
  simp only [Except.ok.injEq] at h
  cases ht : get_string_for_key m TITLE_KEY <;> rw [ht] at h <;>
    cases ha : get_string_for_key m AUTHOR_KEY <;> rw [ha] at h <;>
    cases hb : get_string_for_key m BRANCH_KEY <;> rw [hb] at h <;>
    cases hid : get_string_for_key m ID_KEY <;> rw [hid] at h <;>
    cases htm : get_string_for_key m TIME_KEY <;> rw [htm] at h <;>
    simp only [Option.bind_eq_bind, Option.none_bind, Option.some_bind] at h <;>
    try exact absurd h (by simp)
  split at h
  · simp only [Option.some.injEq] at h
    rw [← h]
    exact ⟨rfl, rfl, rfl⟩
  · exact absurd h (by simp)

/-- C10: every issue Issue::from_json successfully decodes has empty
body_text and an empty events list - the metadata envelope neither
stores nor restores the body or the timeline. -/
theorem c10_envelope_empty :
    ∀ (j : Json) (i : Issue), Issue.from_json j = Except.ok (some i) →
      i.body_text = "" ∧ i.events = [] := by
  intro j i h
  unfold Issue.from_json at h
  cases j <;>
    simp only [Except.map, Option.map] at h <;>
    try exact absurd h (by simp)
  case object m =>
    cases hr : Issue.read_from_map m <;> rw [hr] at h <;>
      simp only [Except.map] at h
    · exact absurd h (by simp)
    case ok o =>
      cases o <;> simp only [Except.ok.injEq, Option.map] at h
      · exact absurd h (by simp)
      case some i0 =>
        obtain ⟨hb, he, _⟩ := read_from_map_ok_some m i0 hr
        simp only [Option.some.injEq] at h
        subst h
        unfold sort_issue_events
        rw [he]
        exact ⟨hb, rfl⟩

theorem c10_witness :
    (Issue.from_json (Json.object
      [(VERSION_KEY, Json.string "1"), (TITLE_KEY, Json.string "t"),
       (AUTHOR_KEY, Json.string "a"), (BRANCH_KEY, Json.string "b"),
       (ID_KEY, Json.string "i"),
       (TIME_KEY, Json.string "2013-01-01 2013 at 00:00:00")])
      = Except.ok (some ⟨"t", ⟨2013,1,1,0,0,0,0⟩, "a", "", "i", [], "b", IssueStatus.default⟩))
    ∧ ((⟨"t", ⟨2013,1,1,0,0,0,0⟩, "a", "", "i", [], "b", IssueStatus.default⟩ : Issue).body_text = ""
        ∧ (⟨"t", ⟨2013,1,1,0,0,0,0⟩, "a", "", "i", [], "b", IssueStatus.default⟩ : Issue).events = []) :=
  ⟨rfl, c10_envelope_empty (Json.object
      [(VERSION_KEY, Json.string "1"), (TITLE_KEY, Json.string "t"),
       (AUTHOR_KEY, Json.string "a"), (BRANCH_KEY, Json.string "b"),
       (ID_KEY, Json.string "i"),
       (TIME_KEY, Json.string "2013-01-01 2013 at 00:00:00")])
      ⟨"t", ⟨2013,1,1,0,0,0,0⟩, "a", "", "i", [], "b", IssueStatus.default⟩ rfl⟩

/-- C8: the status entry never decides the fate of an issue decode:
replacing it by its absence changes neither the panic/miss/hit outcome;
a successful decode carries exactly the status entry's fallback decode;
and IssueStatus::from_json maps a non-object, a missing/mistyped name
or time, or an unparseable time string to the default status
(DEFAULT_STATUS_NAME with the all-zero tm). -/
theorem c8_status_fallback :
    (∀ m : JObj, decode_outcome (Issue.read_from_map m)
        = decode_outcome (Issue.read_from_map (eraseKey m STATE_KEY)))
    ∧ (∀ (m : JObj) (i : Issue), Issue.read_from_map m = Except.ok (some i) →
        i.status = (match jLookup m STATE_KEY with
                    | none => IssueStatus.default
                    | some j => IssueStatus.from_json j))
    ∧ (∀ j : Json, (∀ o, j ≠ Json.object o) → IssueStatus.from_json j = IssueStatus.default)
    ∧ (∀ m : JObj,
        get_string_for_key m NAME_KEY = none ∨ get_string_for_key m TIME_KEY = none ∨
        (∃ ts, get_string_for_key m TIME_KEY = some ts ∧ strptime ts = none) →
        IssueStatus.from_json (Json.object m) = IssueStatus.default) := by
  refine ⟨fun m => ?_, fun m i h => (read_from_map_ok_some m i h).2.2, fun j h => ?_, fun m h => ?_⟩
  · have h1 : get_string_for_key (eraseKey m STATE_KEY) VERSION_KEY
        = get_string_for_key m VERSION_KEY := gsk_eraseKey_ne m _ _ (by decide)
    have h2 : get_string_for_key (eraseKey m STATE_KEY) TITLE_KEY
        = get_string_for_key m TITLE_KEY := gsk_eraseKey_ne m _ _ (by decide)
    have h3 : get_string_for_key (eraseKey m STATE_KEY) AUTHOR_KEY
        = get_string_for_key m AUTHOR_KEY := gsk_eraseKey_ne m _ _ (by decide)
    have h4 : get_string_for_key (eraseKey m STATE_KEY) BRANCH_KEY
        = get_string_for_key m BRANCH_KEY := gsk_eraseKey_ne m _ _ (by decide)
    have h5 : get_string_for_key (eraseKey m STATE_KEY) ID_KEY
        = get_string_for_key m ID_KEY := gsk_eraseKey_ne m _ _ (by decide)
    have h6 : get_string_for_key (eraseKey m STATE_KEY) TIME_KEY
        = get_string_for_key m TIME_KEY := gsk_eraseKey_ne m _ _ (by decide)
    unfold Issue.read_from_map
    simp only [h1, h2, h3, h4, h5, h6]
    cases hv : get_string_for_key m VERSION_KEY
    · rfl
    case some vstr =>
      simp only []
      cases hr : from_str_radix10 vstr
      · rfl
      case some v =>
        simp only []
        by_cases hv1 : v = 1
        case neg => simp [hv1]
        simp only [if_pos hv1]
        unfold decode_outcome
        cases ht : get_string_for_key m TITLE_KEY <;>
          cases ha : get_string_for_key m AUTHOR_KEY <;>
          cases hb : get_string_for_key m BRANCH_KEY <;>
          cases hid : get_string_for_key m ID_KEY <;>
          cases htm : get_string_for_key m TIME_KEY <;>
          simp only [Option.bind_eq_bind, Option.none_bind, Option.some_bind] <;>
          try rfl
        cases hs : strptime _ <;> rfl
  · cases j <;> first | rfl | exact absurd rfl (h _)
  · unfold IssueStatus.from_json
    rcases h with h | h | ⟨ts, hts, hp⟩
    · simp [h]
    · cases hn : get_string_for_key m NAME_KEY <;> simp [h, hn]
    · cases hn : get_string_for_key m NAME_KEY <;> simp [hts, hn, hp]

theorem c8_witness :
    (⟨"t", ⟨2013,1,1,0,0,0,0⟩, "a", "", "i", [], "b", IssueStatus.default⟩ : Issue).status
      = (match jLookup [(VERSION_KEY, Json.string "1"), (TITLE_KEY, Json.string "t"),
                        (AUTHOR_KEY, Json.string "a"), (BRANCH_KEY, Json.string "b"),
                        (ID_KEY, Json.string "i"),
                        (TIME_KEY, Json.string "2013-01-01 2013 at 00:00:00")] STATE_KEY with
         | none => IssueStatus.default
         | some j => IssueStatus.from_json j) :=
  c8_status_fallback.2.1
    [(VERSION_KEY, Json.string "1"), (TITLE_KEY, Json.string "t"),
     (AUTHOR_KEY, Json.string "a"), (BRANCH_KEY, Json.string "b"),
     (ID_KEY, Json.string "i"),
     (TIME_KEY, Json.string "2013-01-01 2013 at 00:00:00")]
    ⟨"t", ⟨2013,1,1,0,0,0,0⟩, "a", "", "i", [], "b", IssueStatus.default⟩ rfl

/-- C7: on every JSON value that is not a 2-element array,
IssueTimelineEvent::from_json agrees with decoding the value as a bare
legacy Comment payload; and a payload wrapped as ["comment", payload]
decodes to exactly the Comment event the bare payload decodes to. -/
theorem c7_legacy_comment :
    (∀ (j : Json) (genId : String), (∀ xs, j = Json.array xs → xs.length ≠ 2) →
       IssueTimelineEvent.from_json j genId
         = (IssueComment.from_json j genId).map IssueTimelineEvent.TimelineComment)
    ∧ (∀ (p : Json) (genId : String),
       IssueTimelineEvent.from_json (Json.array [Json.string "comment", p]) genId
         = (IssueComment.from_json p genId).map IssueTimelineEvent.TimelineComment) := by
  constructor
  · intro j genId h
    cases j <;> try rfl
    case array xs =>
      have hlen := h xs rfl
      rcases xs with _ | ⟨a, _ | ⟨b, _ | ⟨c, rest⟩⟩⟩
      · rfl
      · cases a <;> rfl
      · exact absurd rfl hlen
      · cases a <;> rfl
  · intro p genId
    unfold IssueTimelineEvent.from_json
    simp

theorem c7_witness :
    IssueTimelineEvent.from_json (Json.object [(BODY_KEY, Json.string "b")]) "g"
      = (IssueComment.from_json (Json.object [(BODY_KEY, Json.string "b")]) "g").map
          IssueTimelineEvent.TimelineComment :=
  c7_legacy_comment.1 (Json.object [(BODY_KEY, Json.string "b")]) "g"
    (fun _ h => Json.noConfusion h)

theorem process_all_std (args : List String) (s : Flags) :
    ((⟨std_handler, s, false⟩ : StateMachine Flags String).process_all args).extract_state
      = match args.getLast? with
        | none => s
        | some l => ⟨some l⟩ := by
  induction args generalizing s with
  | nil => rfl
  | cons a as ih =>
    show ((⟨std_handler, s, false⟩ : StateMachine Flags String).process a
            |>.process_all as).extract_state = _
    have hstep : (⟨std_handler, s, false⟩ : StateMachine Flags String).process a
        = ⟨std_handler, ⟨some a⟩, false⟩ := rfl
    rw [hstep, ih ⟨some a⟩]
    cases as with
    | nil => rfl
    | cons b bs =>
      simp only [List.getLast?_cons_cons]
      cases hbl : (b :: bs).getLast? with
      | none => exact absurd (List.getLast?_eq_none_iff.mp hbl) (by simp)
      | some l => rfl

/-- C9: the comment command's step function always continues with
issueIdPart set to the token just seen, so folding a token list through
the state machine leaves the accumulator built by directly setting that
field to the last token, and the empty fold keeps the initial none. -/
theorem c9_argument_fold :
    (∀ (flags : Flags) (arg : String),
       std_handler flags arg = NextState.Continue ⟨some arg⟩)
    ∧ (∀ (args : List String) (l : String) (init : Flags), args.getLast? = some l →
        ((StateMachine.new std_handler init).process_all args).extract_state = ⟨some l⟩)
    ∧ new_comment_flags [] = ⟨none⟩ := by
  refine ⟨fun flags arg => rfl, fun args l init h => ?_, rfl⟩
  have hfold := process_all_std args init
  simp only [h] at hfold
  exact hfold

theorem c9_witness :
    ((StateMachine.new std_handler ⟨none⟩).process_all ["abc"]).extract_state
      = ⟨some "abc"⟩ :=
  c9_argument_fold.2.1 ["abc"] "abc" ⟨none⟩ rfl

/-- C4: encode-decode round trip.  For every Issue whose creation time
is a representable calendar time, decoding no_comment_json yields some
issue equal to the original by identity equality, preserving title,
author, id, and the creation time as formatted by the fixed format. -/
theorem c4_round_trip (i : Issue) (hv : i.creation_time.Valid) :
    ∃ d : Issue, Issue.from_json i.no_comment_json = Except.ok (some d)
      ∧ Issue.eq d i = true ∧ Issue.eq i d = true
      ∧ d.title = i.title ∧ d.author = i.author ∧ d.id = i.id
      ∧ strftime d.creation_time = strftime i.creation_time := by
  have hts := strptime_strftime i.creation_time hv
  refine ⟨⟨i.title, ⟨i.creation_time.year, i.creation_time.month, i.creation_time.day,
            i.creation_time.hour, i.creation_time.min, i.creation_time.sec, 0⟩,
           i.author, "", i.id, [], i.branch, IssueStatus.from_json i.status.to_json⟩,
         ?_, by simp [Issue.eq], by simp [Issue.eq], rfl, rfl, rfl, rfl⟩
  unfold Issue.from_json Issue.no_comment_json Issue.read_from_map
  simp [get_string_for_key, jLookup, VERSION_KEY, TITLE_KEY, TIME_KEY, AUTHOR_KEY,
        ID_KEY, BRANCH_KEY, STATE_KEY, CURRENT_VERSION, hts, Except.map,
        sort_issue_events, sort_events_by_time]
  rfl

theorem contains_eq_true_iff (l : List String) (a : String) :
    l.contains a = true ↔ a ∈ l := by
  simp [List.contains_iff_exists_mem_beq, beq_iff_eq]

theorem allTags_step_skip (st : List String × List String) (t : IssueTag)
    (hu : t.tag_name ∈ st.1) :
    allTagsStep st (IssueTimelineEvent.TimelineTag t) = st := by
  simp [allTagsStep, hu]

theorem allTags_step_on (st : List String × List String) (t : IssueTag)
    (hu : t.tag_name ∉ st.1) (he : t.enabled = true) :
    allTagsStep st (IssueTimelineEvent.TimelineTag t) = (st.1, st.2 ++ [t.tag_name]) := by
  simp [allTagsStep, hu, he]

theorem allTags_step_off (st : List String × List String) (t : IssueTag)
    (hu : t.tag_name ∉ st.1) (he : t.enabled = false) :
    allTagsStep st (IssueTimelineEvent.TimelineTag t) = (st.1 ++ [t.tag_name], st.2) := by
  simp [allTagsStep, hu, he]

theorem allTags_mono (L : List IssueTimelineEvent) (st : List String × List String)
    (n : String) (h : n ∈ st.2) : n ∈ (L.foldl allTagsStep st).2 := by
  induction L generalizing st with
  | nil => exact h
  | cons e L ih =>
    show n ∈ (L.foldl allTagsStep (allTagsStep st e)).2
    cases e with
    | TimelineComment c => exact ih st h
    | TimelineTag t =>
      by_cases hu : t.tag_name ∈ st.1
      · rw [allTags_step_skip st t hu]
        exact ih st h
      · cases he : t.enabled
        · rw [allTags_step_off st t hu he]
          exact ih _ h
        · rw [allTags_step_on st t hu he]
          exact ih _ (by simp [h])

theorem allTags_blocked (L : List IssueTimelineEvent) (st : List String × List String)
    (n : String) (h1 : n ∈ st.1) (h2 : n ∉ st.2) : n ∉ (L.foldl allTagsStep st).2 := by
  induction L generalizing st with
  | nil => exact h2
  | cons e L ih =>
    show n ∉ (L.foldl allTagsStep (allTagsStep st e)).2
    cases e with
    | TimelineComment c => exact ih st h1 h2
    | TimelineTag t =>
      by_cases hu : t.tag_name ∈ st.1
      · rw [allTags_step_skip st t hu]
        exact ih st h1 h2
      · cases he : t.enabled
        · rw [allTags_step_off st t hu he]
          exact ih _ (by simp [h1]) h2
        · rw [allTags_step_on st t hu he]
          have hne : t.tag_name ≠ n := fun hEq => hu (hEq ▸ h1)
          exact ih _ h1 (by simp [h2, Ne.symm hne])

theorem allTags_fold_mem (L : List IssueTimelineEvent) (u tl : List String) (n : String)
    (hn1 : n ∉ u) (hn2 : n ∉ tl) :
    (n ∈ (L.foldl allTagsStep (u, tl)).2
      ↔ ∃ t, first_tag_named n L = some t ∧ t.enabled = true) := by
  induction L generalizing u tl with
  | nil => simp [first_tag_named, hn2]
  | cons e L ih =>
    show n ∈ (L.foldl allTagsStep (allTagsStep (u, tl) e)).2 ↔ _
    cases e with
    | TimelineComment c =>
      rw [show allTagsStep (u, tl) (IssueTimelineEvent.TimelineComment c) = (u, tl) from rfl,
          show first_tag_named n (IssueTimelineEvent.TimelineComment c :: L)
            = first_tag_named n L from rfl]
      exact ih u tl hn1 hn2
    | TimelineTag t =>
      rw [show first_tag_named n (IssueTimelineEvent.TimelineTag t :: L)
            = if t.tag_name = n then some t else first_tag_named n L from rfl]
      by_cases hu : t.tag_name ∈ u
      · rw [allTags_step_skip (u, tl) t hu]
        have hne : t.tag_name ≠ n := fun hEq => hn1 (hEq ▸ hu)
        rw [if_neg hne]
        exact ih u tl hn1 hn2
      · cases he : t.enabled
        · rw [allTags_step_off (u, tl) t hu he]
          by_cases hEq : t.tag_name = n
          · rw [if_pos hEq]
            refine iff_of_false ?_ ?_
            · exact allTags_blocked L (u ++ [t.tag_name], tl) n (by simp [hEq]) hn2
            · rintro ⟨t', ht', hen⟩
              cases ht'
              rw [he] at hen
              exact Bool.false_ne_true hen
          · rw [if_neg hEq]
            exact ih (u ++ [t.tag_name]) tl
              (by simp only [List.mem_append, List.mem_singleton, not_or]
                  exact ⟨hn1, fun hh => hEq hh.symm⟩) hn2
        · rw [allTags_step_on (u, tl) t hu he]
          by_cases hEq : t.tag_name = n
          · rw [if_pos hEq]
            refine iff_of_true ?_ ⟨t, rfl, he⟩
            exact allTags_mono L (u, tl ++ [t.tag_name]) n (by simp [hEq])
          · rw [if_neg hEq]
            exact ih u (tl ++ [t.tag_name]) hn1
              (by simp only [List.mem_append, List.mem_singleton, not_or]
                  exact ⟨hn2, fun hh => hEq hh.symm⟩)

/-- C1 (amended): for an Issue with time-sorted events, all_tags
contains a name exactly when the most recent (last-listed) Tag event of
that name is enabled (the at-most-once part of the claim fails: an
enabled toggle does not close its name, see the counterexample); and
the two quoted examples hold as stated: on the sorted history
[Tag("x",true,t=1), Tag("x",false,t=2), Tag("x",true,t=3)] all_tags is
exactly ["x"] - "x" exactly once - and on [Tag("y",true,t=1),
Tag("y",false,t=2)] all_tags is empty. -/
theorem c1_amended :
    (∀ (i : Issue), sortedByTime i.events = true → ∀ n : String,
       (n ∈ i.all_tags ↔ ∃ t, latest_tag_named i.events n = some t ∧ t.enabled = true))
    ∧ sortedByTime
        [IssueTimelineEvent.TimelineTag ⟨⟨2013,1,1,0,0,1,0⟩, "x", true, "a", "1"⟩,
         IssueTimelineEvent.TimelineTag ⟨⟨2013,1,1,0,0,2,0⟩, "x", false, "a", "2"⟩,
         IssueTimelineEvent.TimelineTag ⟨⟨2013,1,1,0,0,3,0⟩, "x", true, "a", "3"⟩] = true
    ∧ Issue.all_tags ⟨"t", ⟨2013,1,1,0,0,0,0⟩, "a", "", "i",
        [IssueTimelineEvent.TimelineTag ⟨⟨2013,1,1,0,0,1,0⟩, "x", true, "a", "1"⟩,
         IssueTimelineEvent.TimelineTag ⟨⟨2013,1,1,0,0,2,0⟩, "x", false, "a", "2"⟩,
         IssueTimelineEvent.TimelineTag ⟨⟨2013,1,1,0,0,3,0⟩, "x", true, "a", "3"⟩],
        "m", IssueStatus.default⟩ = ["x"]
    ∧ sortedByTime
        [IssueTimelineEvent.TimelineTag ⟨⟨2013,1,1,0,0,1,0⟩, "y", true, "a", "1"⟩,
         IssueTimelineEvent.TimelineTag ⟨⟨2013,1,1,0,0,2,0⟩, "y", false, "a", "2"⟩] = true
    ∧ Issue.all_tags ⟨"t", ⟨2013,1,1,0,0,0,0⟩, "a", "", "i",
        [IssueTimelineEvent.TimelineTag ⟨⟨2013,1,1,0,0,1,0⟩, "y", true, "a", "1"⟩,
         IssueTimelineEvent.TimelineTag ⟨⟨2013,1,1,0,0,2,0⟩, "y", false, "a", "2"⟩],
        "m", IssueStatus.default⟩ = [] := by
  refine ⟨fun i hs n => ?_, by decide, by decide, by decide, by decide⟩
  unfold Issue.all_tags latest_tag_named
  exact allTags_fold_mem i.events.reverse [] [] n (by simp) (by simp)

theorem c1_amended_witness :
    ("y" ∈ (⟨"t", ⟨2013,1,1,0,0,0,0⟩, "a", "", "i",
        [IssueTimelineEvent.TimelineTag ⟨⟨2013,1,1,0,0,0,0⟩, "y", true, "a", "1"⟩,
         IssueTimelineEvent.TimelineTag ⟨⟨2013,1,1,0,0,1,0⟩, "y", false, "a", "2"⟩],
        "m", IssueStatus.default⟩ : Issue).all_tags
      ↔ ∃ t, latest_tag_named
          [IssueTimelineEvent.TimelineTag ⟨⟨2013,1,1,0,0,0,0⟩, "y", true, "a", "1"⟩,
           IssueTimelineEvent.TimelineTag ⟨⟨2013,1,1,0,0,1,0⟩, "y", false, "a", "2"⟩] "y"
            = some t ∧ t.enabled = true) :=
  c1_amended.1 ⟨"t", ⟨2013,1,1,0,0,0,0⟩, "a", "", "i",
      [IssueTimelineEvent.TimelineTag ⟨⟨2013,1,1,0,0,0,0⟩, "y", true, "a", "1"⟩,
       IssueTimelineEvent.TimelineTag ⟨⟨2013,1,1,0,0,1,0⟩, "y", false, "a", "2"⟩],
      "m", IssueStatus.default⟩ (by decide) "y"

/-- C1 counterexample: the claim says all_tags contains each name at
most once; but with two enabled Tag events for "x" at increasing times
(a time-sorted history), all_tags lists "x" twice, because the reverse
scan only closes a name on a disabled event. -/
theorem c1_counterexample :
    sortedByTime [IssueTimelineEvent.TimelineTag ⟨⟨2013,1,1,0,0,0,0⟩, "x", true, "a", "1"⟩,
                  IssueTimelineEvent.TimelineTag ⟨⟨2013,1,1,0,0,1,0⟩, "x", true, "a", "2"⟩] = true
    ∧ (Issue.all_tags ⟨"t", ⟨2013,1,1,0,0,0,0⟩, "a", "", "i",
        [IssueTimelineEvent.TimelineTag ⟨⟨2013,1,1,0,0,0,0⟩, "x", true, "a", "1"⟩,
         IssueTimelineEvent.TimelineTag ⟨⟨2013,1,1,0,0,1,0⟩, "x", true, "a", "2"⟩],
        "m", IssueStatus.default⟩).count "x" = 2 := by
  exact ⟨by decide, by decide⟩

theorem ts_lt_spec (x y : Timespec) :
    Timespec.lt x y = true ↔ (x.sec < y.sec ∨ (x.sec = y.sec ∧ x.nsec < y.nsec)) := by
  simp [Timespec.lt]

theorem ts_not_lt (x y : Timespec) (h : Timespec.lt x y = false) :
    ¬(x.sec < y.sec ∨ (x.sec = y.sec ∧ x.nsec < y.nsec)) := by
  rw [← ts_lt_spec, h]
  exact Bool.false_ne_true

theorem ts_lt_irrefl (x : Timespec) : Timespec.lt x x = false := by
  cases hb : Timespec.lt x x
  · rfl
  · have := (ts_lt_spec x x).mp hb
    omega

theorem ts_lt_lemma1 (a t r : Timespec) (h1 : Timespec.lt a t = true)
    (h2 : Timespec.lt r t = false) : Timespec.lt r a = false := by
  cases hb : Timespec.lt r a
  · rfl
  · have h1' := (ts_lt_spec a t).mp h1
    have h2' := ts_not_lt r t h2
    have hb' := (ts_lt_spec r a).mp hb
    omega

theorem ts_lt_lemma2 (a t r : Timespec) (h1 : Timespec.lt a t = false)
    (h2 : Timespec.lt r a = false) : Timespec.lt r t = false := by
  cases hb : Timespec.lt r t
  · rfl
  · have h1' := ts_not_lt a t h1
    have h2' := ts_not_lt r a h2
    have hb' := (ts_lt_spec r t).mp hb
    omega

theorem ts_lt_lemma3 (a t r : Timespec) (h1 : Timespec.lt a t = true)
    (h2 : Timespec.lt r t = false) : Timespec.lt a r = true := by
  have h1' := (ts_lt_spec a t).mp h1
  have h2' := ts_not_lt r t h2
  exact (ts_lt_spec a r).mpr (by omega)

theorem ts_lt_lemma4 (a t r : Timespec) (h1 : Timespec.lt a t = false)
    (h2 : Timespec.lt a r = true) : Timespec.lt t r = true := by
  have h1' := ts_not_lt a t h1
  have h2' := (ts_lt_spec a r).mp h2
  exact (ts_lt_spec t r).mpr (by omega)

theorem mr_fold_filter (name : String) (L : List IssueTimelineEvent) (acc : Option IssueTag) :
    L.foldl (mrStep name) acc = (tags_named name L).foldl mrTagStep acc := by
  induction L generalizing acc with
  | nil => rfl
  | cons e L ih =>
    cases e with
    | TimelineComment c => exact ih acc
    | TimelineTag t =>
      by_cases h : t.tag_name = name
      · rw [show tags_named name (IssueTimelineEvent.TimelineTag t :: L)
              = t :: tags_named name L from by simp [tags_named, h]]
        rw [show (IssueTimelineEvent.TimelineTag t :: L).foldl (mrStep name) acc
              = L.foldl (mrStep name) (mrStep name acc (IssueTimelineEvent.TimelineTag t)) from rfl]
        rw [show mrStep name acc (IssueTimelineEvent.TimelineTag t) = mrTagStep acc t from by
              cases acc <;> simp [mrStep, mrTagStep, h]]
        exact ih _
      · rw [show tags_named name (IssueTimelineEvent.TimelineTag t :: L)
              = tags_named name L from by simp [tags_named, h]]
        rw [show (IssueTimelineEvent.TimelineTag t :: L).foldl (mrStep name) acc
              = L.foldl (mrStep name) (mrStep name acc (IssueTimelineEvent.TimelineTag t)) from rfl]
        rw [show mrStep name acc (IssueTimelineEvent.TimelineTag t) = acc from by
              cases acc <;> simp [mrStep, h]]
        exact ih acc

theorem fold_some_firstMax (T : List IssueTag) (a : IssueTag) :
    T.foldl mrTagStep (some a) = some (firstMax a T) := by
  induction T generalizing a with
  | nil => rfl
  | cons t T ih =>
    show T.foldl mrTagStep (mrTagStep (some a) t) = _
    rw [show firstMax a (t :: T)
          = if Timespec.lt a.time.to_timespec t.time.to_timespec
            then firstMax t T else firstMax a T from rfl]
    cases hb : Timespec.lt a.time.to_timespec t.time.to_timespec <;>
      simp only [mrTagStep, hb, Bool.false_eq_true, ite_false, ite_true]
    · exact ih a
    · exact ih t

theorem firstMax_mem (a : IssueTag) (T : List IssueTag) :
    firstMax a T = a ∨ firstMax a T ∈ T := by
  induction T generalizing a with
  | nil => exact Or.inl rfl
  | cons t T ih =>
    rw [show firstMax a (t :: T)
          = if Timespec.lt a.time.to_timespec t.time.to_timespec
            then firstMax t T else firstMax a T from rfl]
    cases hb : Timespec.lt a.time.to_timespec t.time.to_timespec
    · rw [if_neg (by simp [hb])]
      rcases ih a with h | h
      · exact Or.inl h
      · exact Or.inr (List.mem_cons_of_mem t h)
    · rw [if_pos rfl]
      rcases ih t with h | h
      · rw [h]
        exact Or.inr (List.mem_cons_self t T)
      · exact Or.inr (List.mem_cons_of_mem t h)

theorem firstMax_max (a : IssueTag) (T : List IssueTag) :
    ∀ u, (u = a ∨ u ∈ T) →
      Timespec.lt (firstMax a T).time.to_timespec u.time.to_timespec = false := by
  induction T generalizing a with
  | nil =>
    intro u hu
    rcases hu with h | h
    · rw [h]
      exact ts_lt_irrefl _
    · cases h
  | cons t T ih =>
    rw [show firstMax a (t :: T)
          = if Timespec.lt a.time.to_timespec t.time.to_timespec
            then firstMax t T else firstMax a T from rfl]
    cases hb : Timespec.lt a.time.to_timespec t.time.to_timespec
    · rw [if_neg (by simp [hb])]
      intro u hu
      rcases hu with h | h
      · rw [h]
        exact ih a a (Or.inl rfl)
      · rcases List.mem_cons.mp h with h' | h'
        · rw [h']
          exact ts_lt_lemma2 a.time.to_timespec t.time.to_timespec _ hb (ih a a (Or.inl rfl))
        · exact ih a u (Or.inr h')
    · rw [if_pos rfl]
      intro u hu
      rcases hu with h | h
      · rw [h]
        exact ts_lt_lemma1 a.time.to_timespec t.time.to_timespec _ hb (ih t t (Or.inl rfl))
      · rcases List.mem_cons.mp h with h' | h'
        · rw [h']
          exact ih t t (Or.inl rfl)
        · exact ih t u (Or.inr h')

theorem firstMax_first (a : IssueTag) (T : List IssueTag) :
    ∃ k, (a :: T).get? k = some (firstMax a T)
      ∧ ∀ j u, j < k → (a :: T).get? j = some u →
          Timespec.lt u.time.to_timespec (firstMax a T).time.to_timespec = true := by
  induction T generalizing a with
  | nil =>
    exact ⟨0, rfl, fun j u hj _ => absurd hj (Nat.not_lt_zero j)⟩
  | cons t T ih =>
    rw [show firstMax a (t :: T)
          = if Timespec.lt a.time.to_timespec t.time.to_timespec
            then firstMax t T else firstMax a T from rfl]
    cases hb : Timespec.lt a.time.to_timespec t.time.to_timespec
    · rw [if_neg (by simp [hb])]
      obtain ⟨k', hk', hpre'⟩ := ih a
      cases k' with
      | zero =>
        refine ⟨0, ?_, fun j u hj _ => absurd hj (Nat.not_lt_zero j)⟩
        simpa using hk'
      | succ j' =>
        refine ⟨j' + 2, by simpa using hk', ?_⟩
        intro j u hj hg
        match j, hg with
        | 0, hg =>
          have hu : u = a := by simpa using hg.symm
          rw [hu]
          exact hpre' 0 a (Nat.succ_pos j') rfl
        | 1, hg =>
          have hu : u = t := by simpa using hg.symm
          have haR : Timespec.lt a.time.to_timespec (firstMax a T).time.to_timespec = true :=
            hpre' 0 a (Nat.succ_pos j') rfl
          rw [hu]
          exact ts_lt_lemma4 a.time.to_timespec t.time.to_timespec _ hb haR
        | (j'' + 2), hg =>
          exact hpre' (j'' + 1) u (by omega) (by simpa using hg)
    · rw [if_pos rfl]
      obtain ⟨k', hk', hpre'⟩ := ih t
      refine ⟨k' + 1, by simpa using hk', ?_⟩
      intro j u hj hg
      match j, hg with
      | 0, hg =>
        have hu : u = a := by simpa using hg.symm
        have hmax : Timespec.lt (firstMax t T).time.to_timespec t.time.to_timespec = false :=
          firstMax_max t T t (Or.inl rfl)
        rw [hu]
        exact ts_lt_lemma3 a.time.to_timespec t.time.to_timespec _ hb hmax
      | (j'' + 1), hg =>
        exact hpre' j'' u (by omega) (by simpa using hg)

theorem tags_named_name (name : String) (L : List IssueTimelineEvent) :
    ∀ u, u ∈ tags_named name L → u.tag_name = name := by
  induction L with
  | nil => intro u hu; cases hu
  | cons e L ih =>
    cases e with
    | TimelineComment c => exact ih
    | TimelineTag t =>
      by_cases h : t.tag_name = name
      · rw [show tags_named name (IssueTimelineEvent.TimelineTag t :: L)
              = t :: tags_named name L from by simp [tags_named, h]]
        intro u hu
        rcases List.mem_cons.mp hu with h' | h'
        · rw [h']
          exact h
        · exact ih u h'
      · rw [show tags_named name (IssueTimelineEvent.TimelineTag t :: L)
              = tags_named name L from by simp [tags_named, h]]
        exact ih

/-- C5: most_recent_tag_for_name returns none exactly when no Tag
event carries the name; otherwise it returns a Tag event of that name
with maximal timestamp, namely the first-listed among those attaining
the maximum, so an exact-tie is resolved to the earlier event. -/
theorem c5_most_recent (i : Issue) (name : String) :
    (i.most_recent_tag_for_name name = none ↔ tags_named name i.events = [])
    ∧ (∀ t, i.most_recent_tag_for_name name = some t →
        t.tag_name = name
        ∧ (∀ u, u ∈ tags_named name i.events →
            Timespec.lt t.time.to_timespec u.time.to_timespec = false)
        ∧ ∃ k, (tags_named name i.events).get? k = some t
            ∧ ∀ j u, j < k → (tags_named name i.events).get? j = some u →
                Timespec.lt u.time.to_timespec t.time.to_timespec = true) := by
  have hf : i.most_recent_tag_for_name name
      = (tags_named name i.events).foldl mrTagStep none := mr_fold_filter name i.events none
  rw [hf]
  cases hT : tags_named name i.events with
  | nil =>
    exact ⟨by simp, fun t ht => absurd ht (by simp)⟩
  | cons a T =>
    rw [show (a :: T).foldl mrTagStep none = T.foldl mrTagStep (some a) from rfl,
        fold_some_firstMax]
    constructor
    · simp
    · intro t ht
      have ht' : firstMax a T = t := by simpa using ht
      have hmem : firstMax a T ∈ a :: T := by
        rcases firstMax_mem a T with h | h
        · rw [h]
          exact List.mem_cons_self a T
        · exact List.mem_cons_of_mem a h
      refine ⟨?_, ?_, ?_⟩
      · rw [← ht']
        exact tags_named_name name i.events _ (by rw [hT]; exact hmem)
      · intro u hu
        rw [← ht']
        exact firstMax_max a T u (List.mem_cons.mp hu)
      · rw [← ht']
        exact firstMax_first a T

theorem c5_witness :
    ((⟨⟨2013,1,1,0,0,0,0⟩, "x", true, "a", "A"⟩ : IssueTag).tag_name = "x"
     ∧ (∀ u, u ∈ tags_named "x"
          (⟨"t", ⟨2013,1,1,0,0,0,0⟩, "a", "", "i",
            [IssueTimelineEvent.TimelineTag ⟨⟨2013,1,1,0,0,0,0⟩, "x", true, "a", "A"⟩,
             IssueTimelineEvent.TimelineTag ⟨⟨2013,1,1,0,0,0,0⟩, "x", true, "a", "B"⟩],
            "m", IssueStatus.default⟩ : Issue).events →
          Timespec.lt (⟨⟨2013,1,1,0,0,0,0⟩, "x", true, "a", "A"⟩ : IssueTag).time.to_timespec
            u.time.to_timespec = false)
     ∧ ∃ k, (tags_named "x"
          (⟨"t", ⟨2013,1,1,0,0,0,0⟩, "a", "", "i",
            [IssueTimelineEvent.TimelineTag ⟨⟨2013,1,1,0,0,0,0⟩, "x", true, "a", "A"⟩,
             IssueTimelineEvent.TimelineTag ⟨⟨2013,1,1,0,0,0,0⟩, "x", true, "a", "B"⟩],
            "m", IssueStatus.default⟩ : Issue).events).get? k
            = some (⟨⟨2013,1,1,0,0,0,0⟩, "x", true, "a", "A"⟩ : IssueTag)
        ∧ ∀ j u, j < k → (tags_named "x"
            (⟨"t", ⟨2013,1,1,0,0,0,0⟩, "a", "", "i",
              [IssueTimelineEvent.TimelineTag ⟨⟨2013,1,1,0,0,0,0⟩, "x", true, "a", "A"⟩,
               IssueTimelineEvent.TimelineTag ⟨⟨2013,1,1,0,0,0,0⟩, "x", true, "a", "B"⟩],
              "m", IssueStatus.default⟩ : Issue).events).get? j = some u →
            Timespec.lt u.time.to_timespec
              (⟨⟨2013,1,1,0,0,0,0⟩, "x", true, "a", "A"⟩ : IssueTag).time.to_timespec = true) :=
  (c5_most_recent
    ⟨"t", ⟨2013,1,1,0,0,0,0⟩, "a", "", "i",
      [IssueTimelineEvent.TimelineTag ⟨⟨2013,1,1,0,0,0,0⟩, "x", true, "a", "A"⟩,
       IssueTimelineEvent.TimelineTag ⟨⟨2013,1,1,0,0,0,0⟩, "x", true, "a", "B"⟩],
      "m", IssueStatus.default⟩ "x").2
    ⟨⟨2013,1,1,0,0,0,0⟩, "x", true, "a", "A"⟩ (by decide)

theorem c4_witness :
    (⟨"F", ⟨2013,5,1,9,30,7,0⟩, "A", "B", "ID", [], "M", IssueStatus.default⟩
        : Issue).creation_time.Valid
    ∧ ∃ d : Issue,
        Issue.from_json (⟨"F", ⟨2013,5,1,9,30,7,0⟩, "A", "B", "ID", [], "M",
            IssueStatus.default⟩ : Issue).no_comment_json = Except.ok (some d)
        ∧ Issue.eq d ⟨"F", ⟨2013,5,1,9,30,7,0⟩, "A", "B", "ID", [], "M",
            IssueStatus.default⟩ = true
        ∧ Issue.eq ⟨"F", ⟨2013,5,1,9,30,7,0⟩, "A", "B", "ID", [], "M",
            IssueStatus.default⟩ d = true
        ∧ d.title = "F" ∧ d.author = "A" ∧ d.id = "ID"
        ∧ strftime d.creation_time = strftime ⟨2013,5,1,9,30,7,0⟩ :=
  ⟨by decide,
   c4_round_trip ⟨"F", ⟨2013,5,1,9,30,7,0⟩, "A", "B", "ID", [], "M", IssueStatus.default⟩
     (by decide)⟩
